import Mathlib

/-!
Verification of the spatial-multiplier / kernel-weight core of the
`spatial_regression_notebooks` repository.

The notebooks call two numerical routines, `i_multipliers` and `make_wnslx`,
whose behaviour the specification documents in detail (distance-decay kernel
evaluation and per-observation spatial multipliers).  Those routines live in
the external `spreg` package, so they are modelled here from the
specification; the helper functions `nbreffect` and `multmap` are defined in
the notebook `8_spatial_multipliers.ipynb` itself and are embedded from that
source.  Real numbers stand in for Python floats, rationals for the exact
matrix arithmetic; floating-point tolerances in the spec become exact
equalities of the mathematical model.
-/

namespace SpatialReg

/-- Error taxonomy of the kernel / transform evaluator, from the spec's
failure semantics: an unrecognized kernel kind and an out-of-domain scalar
parameter. -/
inductive KernelError where
  | UnsupportedKernelKind
  | InvalidParameter
  deriving DecidableEq

/-- Modelled from the spec: the triangular kernel `1 - z` (unscaled),
part of `kernel_weight` in the distance-decay evaluator that the notebooks
obtain from `spreg`/`libpysal` (not present under src/). -/
def triangular (z : ℝ) : ℝ := 1 - z

/-- Modelled from the spec: the Epanechnikov kernel `1 - z²` (unscaled;
the spec fixes the unscaled convention as the permanent contract). -/
def epanechnikov (z : ℝ) : ℝ := 1 - z ^ 2

/-- Modelled from the spec: the quartic kernel `(1 - z²)²` (unscaled). -/
def quartic (z : ℝ) : ℝ := (1 - z ^ 2) ^ 2

/-- Modelled from the spec: the Gaussian kernel `exp(-z²/2)`, deliberately
unscaled by `sqrt(2π)`. -/
noncomputable def gaussian (z : ℝ) : ℝ := Real.exp (-(z ^ 2) / 2)

/-- Modelled from the spec: `kernel_weight(z, kind)` dispatches on the kernel
identifier and fails with `UnsupportedKernelKind` on an unrecognized kind. -/
noncomputable def kernel_weight (z : ℝ) (kind : String) : Except KernelError ℝ :=
  if kind = "triangular" then .ok (triangular z)
  else if kind = "epanechnikov" then .ok (epanechnikov z)
  else if kind = "quartic" then .ok (quartic z)
  else if kind = "gaussian" then .ok (gaussian z)
  else .error .UnsupportedKernelKind

/-- Modelled from the spec: `power_transform(z, alpha) = (1 - z)^alpha` for
`alpha ≥ 0`; a negative `alpha` fails with `InvalidParameter` (the spec's
failure semantics for out-of-domain shape parameters).  The power is the
real power, so `alpha = 0` gives the constant `1` even at `z = 1`. -/
noncomputable def power_transform (z alpha : ℝ) : Except KernelError ℝ :=
  if alpha < 0 then .error .InvalidParameter else .ok ((1 - z) ^ alpha)

/-- Modelled from the spec: `exponential_transform(z, alpha) = exp(-alpha·z)`
for `alpha ≥ 0`; negative `alpha` fails with `InvalidParameter`. -/
noncomputable def exponential_transform (z alpha : ℝ) : Except KernelError ℝ :=
  if alpha < 0 then .error .InvalidParameter else .ok (Real.exp (-alpha * z))

/-- Error taxonomy of the multiplier calculator, from the spec's error
handling design. -/
inductive MultError where
  | DimensionMismatch
  | UnsupportedModel
  | InvalidColumn
  | MatrixSingularity
  deriving DecidableEq

/-- Modelled from the spec: the per-observation Direct multiplier, the
diagonal entry of the multiplier matrix. -/
def Direct {n : ℕ} (M : Matrix (Fin n) (Fin n) ℚ) (i : Fin n) : ℚ := M i i

/-- Modelled from the spec: EffectOfNeighbors, the row sum of the multiplier
matrix excluding the diagonal. -/
def EofNbrs {n : ℕ} (M : Matrix (Fin n) (Fin n) ℚ) (i : Fin n) : ℚ :=
  (∑ j, M i j) - M i i

/-- Modelled from the spec: EffectOnNeighbors, the column sum of the
multiplier matrix excluding the diagonal. -/
def EonNbrs {n : ℕ} (M : Matrix (Fin n) (Fin n) ℚ) (i : Fin n) : ℚ :=
  (∑ j, M j i) - M i i

/-- Mean of a per-observation vector of multipliers, as reported by the
notebook's `describe()` summaries. -/
def meanv {n : ℕ} (f : Fin n → ℚ) : ℚ := (∑ i, f i) / n

/-- Computable matrix inverse over ℚ: `det⁻¹ • adjugate`.  Agrees with
Mathlib's `Inv` instance on matrices (see `matInv_eq_inv`). -/
def matInv {n : ℕ} (A : Matrix (Fin n) (Fin n) ℚ) : Matrix (Fin n) (Fin n) ℚ :=
  A.det⁻¹ • A.adjugate

/-- Modelled from the spec: the multiplier matrix of the calculator.  For
`model = "lag"` it is the inverse `(I - coef·W)⁻¹`; for the SLX-type models
(`slx`, `kernel`, `exponential`, `power`) the matrix is the (already
transformed) weights matrix `W` itself, "treated like slx/kernel" per the
spec's model table. -/
def multMatrix {n : ℕ} (model : String) (coef : ℚ) (W : Matrix (Fin n) (Fin n) ℚ) :
    Matrix (Fin n) (Fin n) ℚ :=
  if model = "lag" then matInv (1 - coef • W) else W

/-- One row of the multiplier table, in the documented column order
`[id, Direct, EofNbrs, EonNbrs]`. -/
def multRow {n : ℕ} (M : Matrix (Fin n) (Fin n) ℚ) (ids : List ℚ) (i : Fin n) : List ℚ :=
  [ids.getD i 0, Direct M i, EofNbrs M i, EonNbrs M i]

/-- Whether a list-of-rows matrix is square: every row as long as the list
of rows. -/
def isSquare (W : List (List ℚ)) : Bool :=
  W.all fun r => r.length = W.length

/-- View a square list-of-rows matrix as a `Matrix` over `Fin`. -/
def toMatrix (W : List (List ℚ)) : Matrix (Fin W.length) (Fin W.length) ℚ :=
  fun i j => (W.get i).getD j 0

/-- Modelled from the spec: the full multiplier calculator `i_multipliers`
(provided by `spreg.sputils`, not present under src/).  It validates the
input dimensions before any computation — a non-square `W` or an id vector
of the wrong length fails with `DimensionMismatch` and no table, partial or
complete, is produced — then dispatches on the model identifier: `lag`
inverts `(I - coef·W)` (failing with `MatrixSingularity` on a singular
matrix), the SLX-type models use `W` directly, and an unrecognized model
fails with `UnsupportedModel`.  The result is one table row per spatial
unit, in the order of the id vector. -/
def i_multipliers (W : List (List ℚ)) (ids : List ℚ) (model : String) (coef : ℚ) :
    Except MultError (List (List ℚ)) :=
  if ¬ isSquare W then .error .DimensionMismatch
  else if ids.length ≠ W.length then .error .DimensionMismatch
  else if model = "lag" then
    if (1 - coef • toMatrix W).det = 0 then .error .MatrixSingularity
    else .ok (List.ofFn fun i => multRow (multMatrix "lag" coef (toMatrix W)) ids i)
  else if model = "slx" ∨ model = "kernel" ∨ model = "exponential" ∨ model = "power" then
    .ok (List.ofFn fun i => multRow (toMatrix W) ids i)
  else .error .UnsupportedModel

/-- A pandas data frame, embedded as its list of rows (each row a list of
rational cell values). -/
abbrev Frame := List (List ℚ)

/-- Horizontal concatenation `pd.concat([dfs, dfm], axis=1)`: rows are
joined pairwise.  A newly allocated frame; the arguments are untouched. -/
def concatF (a b : Frame) : Frame := List.zipWith (fun r s => r ++ s) a b

/-- Observable output events of the notebook helpers: the two printed
min/max lines of `nbreffect` and the choropleth map drawn by `multmap`. -/
inductive NbrEvent where
  | printedMax (v : ℚ) (id : ℚ)
  | printedMin (v : ℚ) (id : ℚ)
  | mapDrawn (dfm : Frame) (column : String) (model : String)
  deriving DecidableEq

/-- Index of the first maximal element of a list (pandas `idxmax`). -/
def idxmaxL (xs : List ℚ) : ℕ :=
  match xs.max? with
  | some m => xs.indexOf m
  | none => 0

/-- Index of the first minimal element of a list (pandas `idxmin`). -/
def idxminL (xs : List ℚ) : ℕ :=
  match xs.min? with
  | some m => xs.indexOf m
  | none => 0

/-- The values of column `c` of a frame. -/
def colVals (f : Frame) (c : ℕ) : List ℚ := f.map fun r => r.getD c 0

/-- The column index the source's `nbreffect` assigns to a multiplier name
(`coli` in `8_spatial_multipliers.ipynb`): 1 for `Direct`, 2 for `EofNbrs`,
3 for `EonNbrs`; any other name raises `Exception("Invalid column")`. -/
def multColIndex (mult : String) : Option ℕ :=
  if mult = "Direct" then some 1
  else if mult = "EofNbrs" then some 2
  else if mult = "EonNbrs" then some 3
  else none

/-- `multmap` from `8_spatial_multipliers.ipynb`: reads the merged frame and
draws one quintile map of the chosen column; it produces no other effect
and returns nothing. -/
def multmap (dfm : Frame) (column : String) (model : String) : List NbrEvent :=
  [.mapDrawn dfm column model]

/-- A heap of frames, standing for the Python objects the notebook's frame
variables reference; helpers receive references (indices) into it, and any
newly created frame is a fresh allocation at the end. -/
structure Heap where
  frames : List Frame

/-- `nbreffect` from `8_spatial_multipliers.ipynb`, embedded with explicit
heap passing.  Following the source statement by statement: the column
index `coli` is resolved first (an invalid `mult` name raises before
anything is printed or drawn); the max and min of the chosen column are
printed with their ids; `pd.concat` builds a new merged frame (a fresh heap
allocation); `multmap` draws the map.  No statement writes to `dfs`, `dfm`
or `oid`, so the existing heap entries are returned unchanged. -/
def nbreffect (h : Heap) (dfsRef dfmRef : ℕ) (oid : List ℚ) (mult model : String) :
    Except String (Heap × List NbrEvent) :=
  match multColIndex mult with
  | none => .error "Invalid column"
  | some coli =>
    let dfm := h.frames.getD dfmRef []
    let col := colVals dfm coli
    let imax := idxmaxL col
    let imin := idxminL col
    let ev1 := NbrEvent.printedMax ((dfm.getD imax []).getD coli 0) (oid.getD imax 0)
    let ev2 := NbrEvent.printedMin ((dfm.getD imin []).getD coli 0) (oid.getD imin 0)
    let dfmap := concatF (h.frames.getD dfsRef []) dfm
    .ok (⟨h.frames ++ [dfmap]⟩, [ev1, ev2] ++ multmap dfmap mult model)

/-- A row-standardized (every row sums to 1) 4×4 weights matrix on which
the lag-model rank ordering of EonNbrs differs between `coef = 0.3` and
`coef = 0.5`. -/
def Wc2 : Matrix (Fin 4) (Fin 4) ℚ :=
  !![0, 0, 1/2, 1/2; 0, 0, 1, 0; 0, 0, 0, 1; 1, 0, 0, 0]

/-- The exact inverse of `I - 0.3·Wc2`. -/
def M3c : Matrix (Fin 4) (Fin 4) ℚ :=
  !![2000/1883, 0, 300/1883, 390/1883;
     54/1883, 1, 573/1883, 180/1883;
     180/1883, 0, 1910/1883, 600/1883;
     600/1883, 0, 90/1883, 2000/1883]

/-- The exact inverse of `I - 0.5·Wc2`. -/
def M5c : Matrix (Fin 4) (Fin 4) ℚ :=
  !![16/13, 0, 4/13, 6/13;
     2/13, 1, 7/13, 4/13;
     4/13, 0, 14/13, 8/13;
     8/13, 0, 2/13, 16/13]

lemma exp_half_mul_self : Real.exp (1/2) * Real.exp (1/2) = Real.exp 1 := by
  rw [← Real.exp_add]; norm_num

lemma exp_half_gt : (1.6487 : ℝ) < Real.exp (1/2) := by
  have h := exp_half_mul_self
  have hp := Real.exp_pos (1/2)
  nlinarith [Real.exp_one_gt_d9]

lemma exp_half_lt : Real.exp (1/2) < (1.6488 : ℝ) := by
  have h := exp_half_mul_self
  have hp := Real.exp_pos (1/2)
  nlinarith [Real.exp_one_lt_d9]

lemma gaussian_one_eq : gaussian 1 = (Real.exp (1/2))⁻¹ := by
  unfold gaussian
  rw [show (-((1:ℝ) ^ 2) / 2) = -(1/2) by norm_num, Real.exp_neg]

/-- C4 (counterexample): with the spec's unscaled kernels, at `z = 0.25`
the quartic kernel equals the square of the Epanechnikov kernel, and it is
not greater than the Epanechnikov kernel, contradicting the claim. -/
theorem quartic_claim_counterexample :
    quartic (1/4) = epanechnikov (1/4) ^ 2 ∧ ¬ quartic (1/4) > epanechnikov (1/4) := by
  constructor
  · rfl
  · unfold quartic epanechnikov
    norm_num

/-- C4 (amended): for every `z`, `quartic z = (1 - z²)²` and this equals
`epanechnikov z ^ 2` as well (the identity holds in general, not fails);
on `(0,1)` the quartic kernel lies strictly below the Epanechnikov kernel,
in particular at `z = 0.25` and at `z = 0.75`. -/
theorem quartic_epanechnikov_relation :
    (∀ z : ℝ, quartic z = (1 - z ^ 2) ^ 2 ∧ quartic z = epanechnikov z ^ 2) ∧
    (∀ z : ℝ, 0 < z → z < 1 → quartic z < epanechnikov z) ∧
    quartic (1/4) < epanechnikov (1/4) ∧ quartic (3/4) < epanechnikov (3/4) := by
  refine ⟨fun z => ⟨rfl, rfl⟩, fun z hz hz1 => ?_, ?_, ?_⟩
  · unfold quartic epanechnikov
    nlinarith [sq_nonneg z, mul_pos (mul_pos hz hz) (by nlinarith : (0:ℝ) < 1 - z ^ 2)]
  · unfold quartic epanechnikov; norm_num
  · unfold quartic epanechnikov; norm_num

/-- Witness for `quartic_epanechnikov_relation` at `z = 1/2`. -/
theorem quartic_epanechnikov_relation_witness :
    quartic (1/2) < epanechnikov (1/2) :=
  quartic_epanechnikov_relation.2.1 (1/2) (by norm_num) (by norm_num)

/-- C5: `kernel_weight` with kind `triangular` is exactly `1 - z` on `[0,1]`
(so `1` at `0` and `0` at `1`); triangular, Epanechnikov and quartic are
monotonically non-increasing on `[0,1]` with value `1` at `z = 0` and `0` at
`z = 1`; the Gaussian kernel is strictly decreasing on `z ≥ 0`, strictly
positive everywhere, and `gaussian 1 = e^{-1/2}` is within `10⁻⁴` of
`0.6065`. -/
theorem kernel_weight_props :
    (∀ z : ℝ, 0 ≤ z → z ≤ 1 → kernel_weight z "triangular" = .ok (1 - z)) ∧
    (triangular 0 = 1 ∧ triangular 1 = 0) ∧
    (∀ a b : ℝ, 0 ≤ a → a ≤ b → b ≤ 1 →
      triangular b ≤ triangular a ∧ epanechnikov b ≤ epanechnikov a ∧ quartic b ≤ quartic a) ∧
    (epanechnikov 0 = 1 ∧ epanechnikov 1 = 0 ∧ quartic 0 = 1 ∧ quartic 1 = 0) ∧
    (∀ a b : ℝ, 0 ≤ a → a < b → gaussian b < gaussian a) ∧
    (∀ z : ℝ, 0 < gaussian z) ∧
    |gaussian 1 - 0.6065| < 1/10000 := by
  refine ⟨fun z _ _ => rfl, ⟨by norm_num [triangular], by norm_num [triangular]⟩,
    fun a b ha hab hb1 => ⟨?_, ?_, ?_⟩,
    ⟨by norm_num [epanechnikov], by norm_num [epanechnikov],
     by norm_num [quartic], by norm_num [quartic]⟩,
    fun a b ha hab => ?_, fun z => Real.exp_pos _, ?_⟩
  · unfold triangular; linarith
  · unfold epanechnikov; nlinarith
  · unfold quartic
    have h1 : 0 ≤ b ^ 2 - a ^ 2 := by nlinarith
    have h2 : 0 ≤ (1 - a ^ 2) + (1 - b ^ 2) := by nlinarith
    nlinarith [mul_nonneg h1 h2]
  · unfold gaussian
    exact Real.exp_lt_exp.mpr (by nlinarith)
  · rw [gaussian_one_eq]
    have hp := Real.exp_pos (1/2)
    have hinv : Real.exp (1/2) * (Real.exp (1/2))⁻¹ = 1 := mul_inv_cancel₀ (ne_of_gt hp)
    have hip : (0:ℝ) < (Real.exp (1/2))⁻¹ := inv_pos.mpr hp
    rw [abs_sub_lt_iff]
    constructor
    · nlinarith [exp_half_gt]
    · nlinarith [exp_half_lt]

/-- Witness for `kernel_weight_props`: the triangular branch at `z = 1/2`
and the Gaussian decrease from `0` to `1`. -/
theorem kernel_weight_props_witness :
    kernel_weight (1/2 : ℝ) "triangular" = .ok (1 - 1/2) ∧ gaussian 1 < gaussian 0 :=
  ⟨kernel_weight_props.1 (1/2) (by norm_num) (by norm_num),
   kernel_weight_props.2.2.2.2.1 0 1 le_rfl one_pos⟩

/-- C6: `power_transform z alpha` returns `(1 - z)^alpha` for `z ∈ [0,1]`
and `alpha ≥ 0`; at `alpha = 0` it is the constant `1` for every `z`
(including `z = 1`, where `0^0 = 1`), and at `z = 1` it is exactly `0` for
every `alpha > 0`. -/
theorem power_transform_props :
    (∀ z alpha : ℝ, 0 ≤ z → z ≤ 1 → 0 ≤ alpha →
      power_transform z alpha = .ok ((1 - z) ^ alpha)) ∧
    (∀ z : ℝ, power_transform z 0 = .ok 1) ∧
    (∀ alpha : ℝ, 0 < alpha → power_transform 1 alpha = .ok 0) := by
  refine ⟨fun z alpha _ _ ha => ?_, fun z => ?_, fun alpha ha => ?_⟩
  · unfold power_transform
    rw [if_neg (not_lt.mpr ha)]
  · unfold power_transform
    rw [if_neg (by norm_num), Real.rpow_zero]
  · unfold power_transform
    rw [if_neg (not_lt.mpr ha.le), show ((1:ℝ) - 1) = 0 by norm_num,
      Real.zero_rpow (ne_of_gt ha)]

/-- Witness for `power_transform_props` at concrete inputs. -/
theorem power_transform_props_witness :
    power_transform (1/2 : ℝ) 2 = .ok ((1 - 1/2 : ℝ) ^ (2:ℝ)) ∧
    power_transform (1:ℝ) 1 = .ok 0 :=
  ⟨power_transform_props.1 (1/2) 2 (by norm_num) (by norm_num) (by norm_num),
   power_transform_props.2.2 1 one_pos⟩

/-- C7: `exponential_transform` fails with `InvalidParameter` for every
negative `alpha` (in particular `alpha = -1`), returns `exp(-alpha·z)` with
no error for every `alpha ≥ 0`, and is the constant `1` at `alpha = 0`. -/
theorem exponential_transform_props :
    (∀ z alpha : ℝ, alpha < 0 →
      exponential_transform z alpha = .error .InvalidParameter) ∧
    (∀ z alpha : ℝ, 0 ≤ alpha →
      exponential_transform z alpha = .ok (Real.exp (-alpha * z))) ∧
    (∀ z : ℝ, exponential_transform z 0 = .ok 1) := by
  refine ⟨fun z alpha ha => ?_, fun z alpha ha => ?_, fun z => ?_⟩
  · unfold exponential_transform
    rw [if_pos ha]
  · unfold exponential_transform
    rw [if_neg (not_lt.mpr ha)]
  · unfold exponential_transform
    rw [if_neg (by norm_num)]
    norm_num

/-- Witness for `exponential_transform_props`: the error at `alpha = -1`
and the value at `alpha = 0`. -/
theorem exponential_transform_props_witness :
    exponential_transform (0:ℝ) (-1) = .error .InvalidParameter ∧
    exponential_transform (1/2 : ℝ) 0 = .ok 1 :=
  ⟨exponential_transform_props.1 0 (-1) (by norm_num),
   exponential_transform_props.2.2 (1/2)⟩

lemma matInv_eq_inv {n : ℕ} (A : Matrix (Fin n) (Fin n) ℚ) : matInv A = A⁻¹ := by
  rw [Matrix.inv_def, matInv, Ring.inverse_eq_inv]

lemma one_rowSum {n : ℕ} (i : Fin n) : ∑ j, (1 : Matrix (Fin n) (Fin n) ℚ) i j = 1 := by
  simp [Matrix.one_apply]

lemma lagA_rowSum {n : ℕ} (W : Matrix (Fin n) (Fin n) ℚ) (coef : ℚ)
    (hrow : ∀ i, ∑ j, W i j = 1) (i : Fin n) :
    ∑ j, (1 - coef • W) i j = 1 - coef := by
  simp [Matrix.sub_apply, Matrix.smul_apply, smul_eq_mul, Finset.sum_sub_distrib,
    ← Finset.mul_sum, hrow i, one_rowSum i]

lemma inv_rowSum {n : ℕ} (A : Matrix (Fin n) (Fin n) ℚ) (hA : IsUnit A.det) (c : ℚ)
    (hr : ∀ i, ∑ j, A i j = c) (i : Fin n) :
    ∑ j, A⁻¹ i j = c⁻¹ := by
  have h2 : ∑ j, (A⁻¹ * A) i j = 1 := by
    rw [Matrix.nonsing_inv_mul A hA]; exact one_rowSum i
  rw [show ∑ j, (A⁻¹ * A) i j = ∑ j, ∑ k, A⁻¹ i k * A k j from by
    simp [Matrix.mul_apply]] at h2
  rw [Finset.sum_comm] at h2
  rw [Finset.sum_congr rfl (fun k _ => by rw [← Finset.mul_sum, hr k])] at h2
  rw [← Finset.sum_mul] at h2
  rw [mul_comm] at h2
  exact eq_inv_of_mul_eq_one_right h2

/-- C1 (amended): for the lag model, whenever every row of `W` sums to 1 and
`I - coef·W` is invertible, the mean of the Direct column plus the mean of
the EofNbrs column equals `1/(1 - coef)` exactly, for each
`coef ∈ {0, 0.3, 0.5, 0.7}` (the Average Total Impact identity). -/
theorem lag_ati_identity {n : ℕ} (hn : 0 < n) (W : Matrix (Fin n) (Fin n) ℚ)
    (hrow : ∀ i, ∑ j, W i j = 1) (coef : ℚ)
    (hc : coef = 0 ∨ coef = 3/10 ∨ coef = 1/2 ∨ coef = 7/10)
    (hinv : IsUnit (1 - coef • W).det) :
    meanv (fun i => Direct (multMatrix "lag" coef W) i) +
      meanv (fun i => EofNbrs (multMatrix "lag" coef W) i) = 1 / (1 - coef) := by
  have hc1 : (1:ℚ) - coef ≠ 0 := by rcases hc with h | h | h | h <;> rw [h] <;> norm_num
  have hnq : (n:ℚ) ≠ 0 := Nat.cast_ne_zero.mpr hn.ne'
  have hM : multMatrix "lag" coef W = (1 - coef • W)⁻¹ := by
    rw [multMatrix, if_pos rfl, matInv_eq_inv]
  have hrs : ∀ i, ∑ j, (1 - coef • W)⁻¹ i j = (1 - coef)⁻¹ :=
    inv_rowSum _ hinv _ (lagA_rowSum W coef hrow)
  rw [hM]
  unfold meanv Direct EofNbrs
  rw [div_add_div_same, ← Finset.sum_add_distrib]
  rw [Finset.sum_congr rfl (fun i _ => by rw [show (1 - coef • W)⁻¹ i i +
    ((∑ j, (1 - coef • W)⁻¹ i j) - (1 - coef • W)⁻¹ i i) = ∑ j, (1 - coef • W)⁻¹ i j
    from by ring, hrs i])]
  rw [Finset.sum_const, Finset.card_univ, Fintype.card_fin, nsmul_eq_mul]
  field_simp
  ring

/-- Witness for `lag_ati_identity`: the symmetric 2×2 exchange matrix at
`coef = 0.5` gives ADI + AII = 2. -/
theorem lag_ati_identity_witness :
    meanv (fun i => Direct (multMatrix "lag" (1/2)
        (!![0, 1; 1, 0] : Matrix (Fin 2) (Fin 2) ℚ)) i) +
      meanv (fun i => EofNbrs (multMatrix "lag" (1/2)
        (!![0, 1; 1, 0] : Matrix (Fin 2) (Fin 2) ℚ)) i) = 1 / (1 - (1/2 : ℚ)) :=
  lag_ati_identity (by norm_num) _
    (fun i => by fin_cases i <;> norm_num [Fin.sum_univ_succ]) (1/2)
    (Or.inr (Or.inr (Or.inl rfl)))
    (isUnit_iff_ne_zero.mpr (by
      norm_num [Matrix.det_fin_two, Matrix.sub_apply, Matrix.smul_apply, Matrix.one_apply]))

/-- C1 (counterexample): the calculator accepts the 1×1 zero weights matrix
(square, zero diagonal, `I - 0.5·W` invertible), yet
mean(Direct) + mean(EofNbrs) = 1 ≠ 2 = 1/(1 - 0.5): the identity fails for
a weights matrix that is not row-standardized. -/
theorem lag_ati_counterexample :
    (1 - (1/2 : ℚ) • (0 : Matrix (Fin 1) (Fin 1) ℚ)).det ≠ 0 ∧
    meanv (fun i => Direct (multMatrix "lag" (1/2) (0 : Matrix (Fin 1) (Fin 1) ℚ)) i) +
      meanv (fun i => EofNbrs (multMatrix "lag" (1/2) (0 : Matrix (Fin 1) (Fin 1) ℚ)) i) ≠
      1 / (1 - (1/2 : ℚ)) := by
  constructor
  · norm_num [Matrix.det_fin_one, Matrix.sub_apply, Matrix.smul_apply, Matrix.one_apply]
  · have h0 : multMatrix "lag" (1/2) (0 : Matrix (Fin 1) (Fin 1) ℚ) = 1 := by
      rw [multMatrix, if_pos rfl, matInv_eq_inv]
      simp
    rw [h0]
    unfold meanv Direct EofNbrs
    norm_num [Fin.sum_univ_one, Matrix.one_apply]

/-- C2 (amended): the rank ordering of EonNbrs is unchanged exactly when
recomputation rescales the multiplier matrix by a positive constant, which
is how the spec justifies the property; for the lag model the multiplier
matrices at two coefficients are not positive rescalings of one another and
the rank ordering can change (see `lag_rank_invariance_counterexample`). -/
theorem eonNbrs_rank_scale_invariant {n : ℕ} (M : Matrix (Fin n) (Fin n) ℚ) (c : ℚ)
    (hc : 0 < c) (i j : Fin n) :
    EonNbrs (c • M) i ≤ EonNbrs (c • M) j ↔ EonNbrs M i ≤ EonNbrs M j := by
  have h : ∀ k, EonNbrs (c • M) k = c * EonNbrs M k := fun k => by
    unfold EonNbrs
    simp [Matrix.smul_apply, smul_eq_mul, Finset.mul_sum, mul_sub]
  rw [h i, h j]
  exact mul_le_mul_left hc

/-- Witness for `eonNbrs_rank_scale_invariant` at the doubled identity. -/
theorem eonNbrs_rank_scale_invariant_witness :
    EonNbrs ((2:ℚ) • (1 : Matrix (Fin 2) (Fin 2) ℚ)) 0 ≤
      EonNbrs ((2:ℚ) • (1 : Matrix (Fin 2) (Fin 2) ℚ)) 1 ↔
    EonNbrs (1 : Matrix (Fin 2) (Fin 2) ℚ) 0 ≤ EonNbrs (1 : Matrix (Fin 2) (Fin 2) ℚ) 1 :=
  eonNbrs_rank_scale_invariant (1 : Matrix (Fin 2) (Fin 2) ℚ) 2 (by norm_num) 0 1

/-- C2 (counterexample): `Wc2` is row-standardized, yet for the lag model
unit 0 has strictly smaller EonNbrs than unit 2 at `coef = 0.3` and
strictly larger EonNbrs at `coef = 0.5`, so the rank ordering changes and
the Spearman correlation between the two EonNbrs vectors is not 1. -/
theorem lag_rank_invariance_counterexample :
    (∀ i, ∑ j, Wc2 i j = 1) ∧
    EonNbrs (multMatrix "lag" (3/10) Wc2) 0 < EonNbrs (multMatrix "lag" (3/10) Wc2) 2 ∧
    EonNbrs (multMatrix "lag" (1/2) Wc2) 2 < EonNbrs (multMatrix "lag" (1/2) Wc2) 0 := by
  have h3 : multMatrix "lag" (3/10) Wc2 = M3c := by
    rw [multMatrix, if_pos rfl, matInv_eq_inv]
    refine Matrix.inv_eq_right_inv ?_
    ext i j
    fin_cases i <;> fin_cases j <;>
      simp +decide [Wc2, M3c, Matrix.mul_apply, Matrix.sub_apply, Matrix.smul_apply,
        Matrix.one_apply, Fin.sum_univ_four] <;> norm_num
  have h5 : multMatrix "lag" (1/2) Wc2 = M5c := by
    rw [multMatrix, if_pos rfl, matInv_eq_inv]
    refine Matrix.inv_eq_right_inv ?_
    ext i j
    fin_cases i <;> fin_cases j <;>
      simp +decide [Wc2, M5c, Matrix.mul_apply, Matrix.sub_apply, Matrix.smul_apply,
        Matrix.one_apply, Fin.sum_univ_four] <;> norm_num
  refine ⟨fun i => by fin_cases i <;> norm_num [Wc2, Fin.sum_univ_four], ?_, ?_⟩
  · rw [h3]; norm_num [EonNbrs, M3c, Fin.sum_univ_four]
  · rw [h5]; norm_num [EonNbrs, M5c, Fin.sum_univ_four]

/-- C3 (amended): for every row-standardized `W` with zero diagonal — the
spec's stated convention for a spatial weights matrix — the SLX-model means
of EofNbrs and of EonNbrs both equal 1 exactly. -/
theorem slx_mean_effects {n : ℕ} (hn : 0 < n) (W : Matrix (Fin n) (Fin n) ℚ)
    (hrow : ∀ i, ∑ j, W i j = 1) (hdiag : ∀ i, W i i = 0) :
    meanv (fun i => EofNbrs (multMatrix "slx" 0 W) i) = 1 ∧
    meanv (fun i => EonNbrs (multMatrix "slx" 0 W) i) = 1 := by
  have hW : multMatrix "slx" 0 W = W := by rw [multMatrix, if_neg (by decide)]
  have hnq : (n:ℚ) ≠ 0 := Nat.cast_ne_zero.mpr hn.ne'
  rw [hW]
  have hof : ∀ i : Fin n, EofNbrs W i = 1 := fun i => by
    unfold EofNbrs; rw [hrow i, hdiag i, sub_zero]
  constructor
  · simp only [meanv, hof]
    rw [Finset.sum_const, Finset.card_univ, Fintype.card_fin, nsmul_eq_mul, mul_one]
    field_simp
  · simp only [meanv, EonNbrs]
    rw [Finset.sum_sub_distrib]
    have h1 : (∑ i : Fin n, ∑ j : Fin n, W j i) = (n : ℚ) := by
      rw [Finset.sum_comm, Finset.sum_congr rfl (fun j _ => hrow j),
        Finset.sum_const, Finset.card_univ, Fintype.card_fin, nsmul_eq_mul, mul_one]
    have h2 : (∑ i : Fin n, W i i) = 0 := by
      rw [Finset.sum_congr rfl (fun i _ => hdiag i)]
      simp
    rw [h1, h2, sub_zero]
    field_simp

/-- Witness for `slx_mean_effects` on the 2×2 exchange matrix. -/
theorem slx_mean_effects_witness :
    meanv (fun i => EofNbrs (multMatrix "slx" 0
        (!![0, 1; 1, 0] : Matrix (Fin 2) (Fin 2) ℚ)) i) = 1 ∧
    meanv (fun i => EonNbrs (multMatrix "slx" 0
        (!![0, 1; 1, 0] : Matrix (Fin 2) (Fin 2) ℚ)) i) = 1 :=
  slx_mean_effects (by norm_num) _
    (fun i => by fin_cases i <;> norm_num [Fin.sum_univ_succ])
    (fun i => by fin_cases i <;> norm_num)

/-- C3 (counterexample): a row-standardized matrix with nonzero diagonal —
every row sums to 1 — for which the SLX mean of EofNbrs is 1/2, not 1: the
claim needs the zero-diagonal convention, not just row-standardization. -/
theorem slx_mean_effects_counterexample :
    (∀ i, ∑ j, (!![1/2, 1/2; 1/2, 1/2] : Matrix (Fin 2) (Fin 2) ℚ) i j = 1) ∧
    meanv (fun i => EofNbrs (multMatrix "slx" 0
      (!![1/2, 1/2; 1/2, 1/2] : Matrix (Fin 2) (Fin 2) ℚ)) i) ≠ 1 := by
  constructor
  · intro i; fin_cases i <;> norm_num [Fin.sum_univ_succ]
  · have hW : multMatrix "slx" 0 (!![1/2, 1/2; 1/2, 1/2] : Matrix (Fin 2) (Fin 2) ℚ) =
        !![1/2, 1/2; 1/2, 1/2] := by rw [multMatrix, if_neg (by decide)]
    rw [hW]
    norm_num [meanv, EofNbrs, Fin.sum_univ_succ]

/-- C8: the multiplier calculator fails with `DimensionMismatch` whenever
`W` is not square or the id vector length differs from `n`; the result on
this path is the bare error — no multiplier table, partial or complete, is
produced before the dimension checks. -/
theorem i_multipliers_dimension_check (W : List (List ℚ)) (ids : List ℚ)
    (model : String) (coef : ℚ) :
    (¬ isSquare W → i_multipliers W ids model coef = .error .DimensionMismatch) ∧
    (ids.length ≠ W.length → i_multipliers W ids model coef = .error .DimensionMismatch) := by
  constructor
  · intro h
    unfold i_multipliers
    rw [if_pos h]
  · intro h
    unfold i_multipliers
    by_cases hsq : (isSquare W : Prop)
    · rw [if_neg (not_not_intro hsq), if_pos h]
    · rw [if_pos hsq]

/-- Witness for `i_multipliers_dimension_check`: a 3×4 weights matrix and a
mismatched id vector both fail. -/
theorem i_multipliers_dimension_check_witness :
    i_multipliers [[1, 2, 3, 4], [5, 6, 7, 8], [9, 10, 11, 12]] [1, 2, 3] "slx" 0 =
      .error .DimensionMismatch ∧
    i_multipliers [[0, 1], [1, 0]] [1, 2, 3] "slx" 0 = .error .DimensionMismatch :=
  ⟨(i_multipliers_dimension_check _ _ _ _).1 (by decide),
   (i_multipliers_dimension_check _ _ _ _).2 (by decide)⟩

/-- C9: `nbreffect` with a `mult` name outside
`{"Direct", "EofNbrs", "EonNbrs"}` fails with the source's
`Invalid column` exception before producing any output event (nothing
printed, no map drawn); for the valid names the selected column index is
1, 2 or 3 respectively, matching the table's column order
`[id, Direct, EofNbrs, EonNbrs]`. -/
theorem nbreffect_column_check :
    (∀ (h : Heap) (r1 r2 : ℕ) (oid : List ℚ) (mult model : String),
      mult ≠ "Direct" → mult ≠ "EofNbrs" → mult ≠ "EonNbrs" →
      nbreffect h r1 r2 oid mult model = .error "Invalid column") ∧
    multColIndex "Direct" = some 1 ∧ multColIndex "EofNbrs" = some 2 ∧
    multColIndex "EonNbrs" = some 3 ∧
    (∀ (n : ℕ) (M : Matrix (Fin n) (Fin n) ℚ) (ids : List ℚ) (i : Fin n),
      (multRow M ids i).getD 0 0 = ids.getD i 0 ∧
      (multRow M ids i).getD 1 0 = Direct M i ∧
      (multRow M ids i).getD 2 0 = EofNbrs M i ∧
      (multRow M ids i).getD 3 0 = EonNbrs M i) := by
  refine ⟨fun h r1 r2 oid mult model h1 h2 h3 => ?_, rfl, rfl, rfl,
    fun n M ids i => ⟨rfl, rfl, rfl, rfl⟩⟩
  have hnone : multColIndex mult = none := by
    unfold multColIndex
    rw [if_neg h1, if_neg h2, if_neg h3]
  unfold nbreffect
  rw [hnone]

/-- Witness for `nbreffect_column_check` at the invalid name `"Foo"`. -/
theorem nbreffect_column_check_witness :
    nbreffect ⟨[]⟩ 0 0 [] "Foo" "slx" = .error "Invalid column" :=
  nbreffect_column_check.1 ⟨[]⟩ 0 0 [] "Foo" "slx" (by decide) (by decide) (by decide)

/-- C10: `nbreffect` mutates none of its inputs: on the success path the
frames already on the heap — in particular the input frames `dfs` and
`dfm` — are returned unchanged; the merged frame handed to `multmap` is a
fresh allocation at the end of the heap, and `multmap` only reads it. -/
theorem nbreffect_no_mutation (h : Heap) (dfsRef dfmRef : ℕ) (oid : List ℚ)
    (mult model : String) (h2 : Heap) (ev : List NbrEvent)
    (hok : nbreffect h dfsRef dfmRef oid mult model = .ok (h2, ev)) :
    ∀ i, i < h.frames.length → h2.frames.getD i [] = h.frames.getD i [] := by
  intro i hi
  unfold nbreffect at hok
  cases hmc : multColIndex mult with
  | none =>
    rw [hmc] at hok
    exact absurd hok (by simp)
  | some coli =>
    rw [hmc] at hok
    simp only [Except.ok.injEq, Prod.mk.injEq] at hok
    obtain ⟨hh, _⟩ := hok
    rw [← hh]
    exact List.getD_append _ _ _ _ hi

/-- Witness for `nbreffect_no_mutation` on a one-frame heap. -/
theorem nbreffect_no_mutation_witness :
    (Heap.mk [[[5]], [[5, 5]]]).frames.getD 0 [] = (Heap.mk [[[5]]]).frames.getD 0 [] :=
  nbreffect_no_mutation ⟨[[[5]]]⟩ 0 0 [] "Direct" "slx" ⟨[[[5]], [[5, 5]]]⟩
    [.printedMax 0 0, .printedMin 0 0, .mapDrawn [[5, 5]] "Direct" "slx"] rfl 0 (by norm_num)

end SpatialReg
